import Mathlib

/-!
# Acquisition loop of the PSoC5 temperature project (`src/main.c`)

A shallow embedding of `main`, `clockISR` and `spiISR`.

* C variables are fields of `State`; the 32-bit and 16-bit machine integers are
  `Int`/`Nat` values reduced explicitly (`toUInt32`, `toInt32`, `toUInt16`).
* Every call into the generated component API is recorded, in program order, in
  `State.trace`; the values the hardware hands back are the fields of `Inputs`.
* `temp_sum / sample_amnt` with `sample_amnt == 0` is undefined behaviour in C.
  The model stops there (`Outcome.divByZero`) and keeps the state reached.
* `sprintf` has no length argument. The model keeps the whole composed text and
  does not track the bytes stored beyond `TransmitBuffer`; `sprintfOverflows`
  tells when the text needs more than `TRANSMIT_BUFFER_SIZE` bytes.
* Interrupt handlers run between two blocks of the loop only when interrupts are
  enabled. A handler only sets its flag, the flag is read once per pass at the
  head of its block, so handlers are interleaved at pass boundaries (`Step`).
-/

namespace PSoC5

/-! ## Machine integers -/

/-- Conversion of a C value to `uint32` (reduction modulo 2^32). -/
def toUInt32 (i : Int) : Nat := (i % 4294967296).toNat

/-- Conversion of an unsigned 32-bit value to `int` (two's complement, as the
ARM GCC toolchain of the project defines it). -/
def toInt32 (n : Nat) : Int :=
  if n % 4294967296 < 2147483648 then ((n % 4294967296 : Nat) : Int)
  else ((n % 4294967296 : Nat) : Int) - 4294967296

/-- Conversion of a value to `uint16`. -/
def toUInt16 (n : Nat) : Nat := n % 65536

/-- Line 24: `#define TRANSMIT_BUFFER_SIZE 40`. -/
def TRANSMIT_BUFFER_SIZE : Nat := 40

/-- Line 59: `int TC74addr = 0x4a;`. -/
def TC74addr : Nat := 0x4a

/-! ## Formatted output -/

/-- The character of one decimal digit. -/
def digitChar (n : Nat) : Char := Char.ofNat (48 + n % 10)

/-- Decimal digits of `n`, most significant first; `fuel` bounds the number of
digits produced. -/
def decDigits : Nat → Nat → List Char
  | 0, _ => []
  | fuel + 1, n =>
    if n < 10 then [digitChar n] else decDigits fuel (n / 10) ++ [digitChar n]

/-- Decimal text of a natural number (`n + 1` digits always suffice). -/
def natToDec (n : Nat) : List Char := decDigits (n + 1) n

/-- What the conversion `%d` prints for an `int` argument. -/
def printInt (i : Int) : List Char :=
  if i < 0 then '-' :: natToDec (-i).toNat else natToDec i.toNat

/-- The text `sprintf` composes from a format and its `int` arguments: each
`%d` consumes one argument, every other character is copied. -/
def sprintf : List Char → List Int → List Char
  | [], _ => []
  | '%' :: 'd' :: rest, a :: args => printInt a ++ sprintf rest args
  | c :: rest, args => c :: sprintf rest args

/-- The format string of lines 149-150, character for character: the literal
is broken after `%d.%d,` and resumes on the next source line after sixteen
blanks, so the line break and the blanks stand between its quotes. -/
def readingFormat : List Char :=
  ("\x7b \"ADC\":%d, \"LMD35\":%d.%d,\n" ++ "                " ++
    "\"SPI\":%d.%d, \"I2C\":%d \x7d\r\n").toList

/-- Line 145: `dec_first = temp / 10` (C division truncates toward zero). -/
def dec_first (temp : Int) : Int := Int.tdiv temp 10

/-- Line 146: `dec_last = temp % 10` (the remainder has the sign of `temp`). -/
def dec_last (temp : Int) : Int := Int.tmod temp 10

/-- Lines 149-151: the text stored in `TransmitBuffer` for the average `temp`
and the latest serial and digital values. -/
def formatReading (temp : Int) (sSPIval sI2Cval : Nat) : List Char :=
  sprintf readingFormat
    [temp, dec_first temp, dec_last temp, ((sSPIval / 10 : Nat) : Int),
      ((sSPIval % 10 : Nat) : Int), (sI2Cval : Int)]

/-- The composed text with its terminating NUL needs more bytes than
`TransmitBuffer` has. -/
def sprintfOverflows (text : List Char) : Bool :=
  decide (TRANSMIT_BUFFER_SIZE < text.length + 1)

/-! ## State, inputs and trace -/

/-- Transfer direction passed to the I2C master calls. -/
inductive XferMode where
  | I2C_WRITE_XFER_MODE
  | I2C_READ_XFER_MODE
  deriving DecidableEq, Repr

/-- One call into the component API (or one use of the interrupt mask), with the
values passed or returned. `average` records the operands of the division of
line 142 and its result. `UART_1_PutString` also records whether global
interrupts were enabled when it was called. -/
inductive Event where
  | ADC_DelSig_1_Start
  | UART_1_Start
  | Timer_1_Start
  | SPIM_Start
  | I2C_Start
  | isr_clock_StartEx
  | isr_SPI_StartEx
  | ADC_DelSig_1_StartConvert
  | CyGlobalIntEnable
  | CyGlobalIntDisable
  | SPIM_WriteTxData (v : Nat)
  | SPIM_ReadRxData (v : Nat)
  | CyDelay (ms : Nat)
  | I2C_MasterSendStart (addr : Nat) (mode : XferMode)
  | I2C_MasterWriteByte (b : Nat)
  | I2C_MasterSendRestart (addr : Nat) (mode : XferMode)
  | I2C_MasterReadByte (v : Nat)
  | I2C_MasterSendStop
  | ADC_DelSig_1_IsEndConversion (done : Bool)
  | ADC_DelSig_1_CountsTo_mVolts (mV : Int)
  | average (temp_sum : Int) (sample_amnt : Nat) (temp : Int)
  | UART_1_PutString (text : List Char) (intEnabled : Bool)
  | Timer_1_ReadStatusRegister
  | SPIM_ReadStatus
  deriving DecidableEq, Repr

/-- The variables of `main` that live across loop passes, the two global flags,
the global interrupt mask and the trace of calls made so far. -/
structure State where
  count_flag : Nat
  spi_flag : Nat
  sSPIval : Nat
  sI2Cval : Nat
  temp_sum : Int
  sample_amnt : Nat
  intEnabled : Bool
  trace : List Event
  deriving DecidableEq, Repr

/-- What the peripherals return during one pass of the loop. -/
structure Inputs where
  /-- Result of `SPIM_ReadRxData()`, when it is called. -/
  rxData : Nat
  /-- Result of `I2C_MasterReadByte(I2C_NAK_DATA)`. -/
  i2cByte : Nat
  /-- Whether `ADC_DelSig_1_IsEndConversion` reports a finished conversion. -/
  endConversion : Bool
  /-- Result of `ADC_DelSig_1_CountsTo_mVolts(ADC_DelSig_1_GetResult16())`, a C
  integer in millivolts; storing it in the `uint32` `Output` reduces it modulo
  2^32. -/
  mVolts : Int
  deriving DecidableEq, Repr

/-- Result of running loop code: the state reached, normally or at a division by
zero. -/
inductive Outcome where
  | ok (s : State)
  | divByZero (s : State)
  deriving DecidableEq, Repr

/-- The state an outcome carries. -/
def Outcome.state : Outcome → State
  | Outcome.ok s => s
  | Outcome.divByZero s => s

/-- Appends one call to the trace. -/
def record (e : Event) (s : State) : State := { s with trace := s.trace ++ [e] }

/-! ## The program -/

/-- Lines 165-169: `clockISR`. -/
def clockISR (s : State) : State :=
  record Event.Timer_1_ReadStatusRegister { s with count_flag := 1 }

/-- Lines 172-176: `spiISR`. -/
def spiISR (s : State) : State :=
  record Event.SPIM_ReadStatus { s with spi_flag := 1 }

/-- Lines 72-99 of `main`: everything before the loop. Interrupts are first
enabled at line 99. -/
def mainInit : State :=
  { count_flag := 0
    spi_flag := 0
    sSPIval := 0x0000
    sI2Cval := 0x0000
    temp_sum := 0
    sample_amnt := 1
    intEnabled := true
    trace :=
      [Event.ADC_DelSig_1_Start, Event.UART_1_Start, Event.Timer_1_Start, Event.SPIM_Start,
        Event.I2C_Start, Event.isr_clock_StartEx, Event.isr_SPI_StartEx,
        Event.ADC_DelSig_1_StartConvert,
        Event.UART_1_PutString "COM Port Open\r\n".toList false,
        Event.CyGlobalIntEnable] }

/-- Lines 102-114: the serial service block. -/
def serialService (inp : Inputs) (s : State) : State :=
  if s.spi_flag = 1 then
    let s1 := record Event.CyGlobalIntDisable { s with intEnabled := false }
    let s2 := record (Event.SPIM_WriteTxData s1.sSPIval) s1
    let s3 :=
      record (Event.SPIM_ReadRxData inp.rxData) { s2 with sSPIval := toUInt16 inp.rxData }
    let s4 := { s3 with sSPIval := s3.sSPIval &&& 0x0fff }
    let s5 := record (Event.CyDelay 100) s4
    let s6 := { s5 with spi_flag := 0 }
    record Event.CyGlobalIntEnable { s6 with intEnabled := true }
  else s

/-- Lines 117-121: the I2C read sequence. -/
def digitalPoll (inp : Inputs) (s : State) : State :=
  let s1 := record (Event.I2C_MasterSendStart TC74addr XferMode.I2C_WRITE_XFER_MODE) s
  let s2 := record (Event.I2C_MasterWriteByte 0x00) s1
  let s3 := record (Event.I2C_MasterSendRestart TC74addr XferMode.I2C_READ_XFER_MODE) s2
  let s4 :=
    record (Event.I2C_MasterReadByte inp.i2cByte) { s3 with sI2Cval := toUInt16 inp.i2cByte }
  record Event.I2C_MasterSendStop s4

/-- Lines 130-133: one finished conversion is added to the window. `Output` is
a `uint32`, the addition is done on unsigned operands and stored back into the
`int` `temp_sum`; `sample_amnt` is a `uint32`. -/
def addSample (mVolts : Int) (s : State) : State :=
  let Output := toUInt32 mVolts
  { s with
    temp_sum := toInt32 (toUInt32 s.temp_sum + Output)
    sample_amnt := (s.sample_amnt + 1) % 4294967296 }

/-- Lines 124-134: the analog integration block. -/
def analogIntegrate (inp : Inputs) (s : State) : State :=
  let s1 := record (Event.ADC_DelSig_1_IsEndConversion inp.endConversion) s
  if inp.endConversion then
    addSample inp.mVolts (record (Event.ADC_DelSig_1_CountsTo_mVolts inp.mVolts) s1)
  else s1

/-- Line 142: `temp = temp_sum / sample_amnt`. The operands are an `int` and a
`uint32`, so the division is unsigned and its result is converted to `int`.
`none` stands for the division by zero. -/
def boxcar (temp_sum : Int) (sample_amnt : Nat) : Option Int :=
  if sample_amnt = 0 then none
  else some (toInt32 (toUInt32 temp_sum / sample_amnt))

/-- Lines 136-160: the emission block. -/
def emission (s : State) : Outcome :=
  if s.count_flag = 1 then
    let s1 := record Event.CyGlobalIntDisable { s with intEnabled := false }
    match boxcar s1.temp_sum s1.sample_amnt with
    | none => Outcome.divByZero s1
    | some temp =>
      let s2 := record (Event.average s1.temp_sum s1.sample_amnt temp) s1
      let TransmitBuffer := formatReading temp s2.sSPIval s2.sI2Cval
      let s3 := record (Event.UART_1_PutString TransmitBuffer s2.intEnabled) s2
      let s4 := { s3 with temp_sum := 0, sample_amnt := 0, count_flag := 0 }
      Outcome.ok (record Event.CyGlobalIntEnable { s4 with intEnabled := true })
  else Outcome.ok s

/-- Lines 102-134: a pass of the loop up to the test of `count_flag` at
line 136. -/
def beforeEmission (inp : Inputs) (s : State) : State :=
  analogIntegrate inp (digitalPoll inp (serialService inp s))

/-- Lines 101-161: one pass of the `for(;;)` body. -/
def loopIter (inp : Inputs) (s : State) : Outcome :=
  emission (beforeEmission inp s)

/-- What happens next: a pass of the loop, or one of the two interrupts firing
between passes. -/
inductive Step where
  | iter (inp : Inputs)
  | clock
  | spi
  deriving DecidableEq, Repr

/-- Runs a schedule of passes and interrupts; stops at a division by zero. -/
def run : List Step → State → Outcome
  | [], s => Outcome.ok s
  | Step.iter inp :: rest, s =>
    match loopIter inp s with
    | Outcome.ok s1 => run rest s1
    | Outcome.divByZero s1 => Outcome.divByZero s1
  | Step.clock :: rest, s => run rest (clockISR s)
  | Step.spi :: rest, s => run rest (spiISR s)

/-! ## Observations on states and traces -/

/-- Integrates the samples `vs`, oldest first (lines 130-133 once per sample). -/
def integrate (vs : List Int) (s : State) : State :=
  vs.foldl (fun st v => addSample v st) s

/-- The average line 142 computes after the samples `vs` were integrated from
the state `s`. -/
def windowAverage (vs : List Int) (s : State) : Option Int :=
  boxcar (integrate vs s).temp_sum (integrate vs s).sample_amnt

/-- Number of strings pushed to the UART. -/
def readingLines (t : List Event) : Nat :=
  t.countP fun e => match e with
    | Event.UART_1_PutString _ _ => true
    | _ => false

/-- Number of `SPIM_WriteTxData` calls. -/
def spiWrites (t : List Event) : Nat :=
  t.countP fun e => match e with
    | Event.SPIM_WriteTxData _ => true
    | _ => false

/-- Number of `SPIM_ReadRxData` calls. -/
def spiReads (t : List Event) : Nat :=
  t.countP fun e => match e with
    | Event.SPIM_ReadRxData _ => true
    | _ => false

/-- The operands (numerator, count) of every division of line 142, in order. -/
def averages (t : List Event) : List (Int × Nat) :=
  t.filterMap fun e => match e with
    | Event.average num cnt _ => some (num, cnt)
    | _ => none

/-- The sample a pass adds to the open window `cur`, if a conversion finished. -/
def extend (inp : Inputs) (cur : List Int) : List Int :=
  if inp.endConversion then cur ++ [inp.mVolts] else cur

/-- Specification of the windows of a schedule, written from the description
of a window and not from the program variables: the windows the schedule
closes, oldest first, each with the samples integrated since the previous
reset, up to and including the sample of the pass that consumes the period
flag. `flag` tells whether the period flag is pending, `cur` holds the samples
of the window that is open. -/
def windows : List Step → Bool → List Int → List (List Int)
  | [], _, _ => []
  | Step.clock :: rest, _, cur => windows rest true cur
  | Step.spi :: rest, flag, cur => windows rest flag cur
  | Step.iter inp :: rest, flag, cur =>
    if flag then extend inp cur :: windows rest false []
    else windows rest false (extend inp cur)

/-- Specification side: the samples of the window still open when the schedule
ends. -/
def pending : List Step → Bool → List Int → List Int
  | [], _, cur => cur
  | Step.clock :: rest, _, cur => pending rest true cur
  | Step.spi :: rest, flag, cur => pending rest flag cur
  | Step.iter inp :: rest, flag, cur =>
    if flag then pending rest false [] else pending rest false (extend inp cur)

/-- Specification side: every sample the schedule integrates, in order. -/
def samples : List Step → List Int
  | [] => []
  | Step.iter inp :: rest => extend inp [] ++ samples rest
  | _ :: rest => samples rest

/-- A window whose sum fits the `int` `temp_sum` and whose length is a
non-zero value of the `uint32` `sample_amnt`. -/
def representable (w : List Int) : Prop :=
  w ≠ [] ∧ w.length < 4294967296 ∧ -2147483648 ≤ w.sum ∧ w.sum < 2147483648

/-- The window variables hold the samples `cur`: `temp_sum` and `sample_amnt`
are their sum and their number in 32-bit arithmetic. -/
def holds (s : State) (cur : List Int) : Prop :=
  s.temp_sum = toInt32 (toUInt32 cur.sum) ∧ s.sample_amnt = cur.length % 4294967296

/-- A pass in which no peripheral has anything new: no conversion finished. -/
def noConversion : Inputs :=
  { rxData := 0, i2cByte := 0, endConversion := false, mVolts := 0 }

/-- A pass in which a conversion finished with `v` millivolts. -/
def conversion (v : Int) : Inputs :=
  { rxData := 0, i2cByte := 0, endConversion := true, mVolts := v }

/-- The state right after the first emission: the period elapses once after
startup and one pass consumes it. -/
def afterFirstEmission : State :=
  (run [Step.clock, Step.iter noConversion] mainInit).state

/-! ## Machine-integer lemmas -/

theorem toUInt32_lt (i : Int) : toUInt32 i < 4294967296 := by
  unfold toUInt32; omega

theorem toUInt32_toInt32 (n : Nat) : toUInt32 (toInt32 n) = n % 4294967296 := by
  unfold toUInt32 toInt32; split <;> omega

theorem toUInt32_add (a b : Int) :
    (toUInt32 a + toUInt32 b) % 4294967296 = toUInt32 (a + b) := by
  unfold toUInt32; omega

theorem toInt32_toUInt32 (i : Int) (h1 : -2147483648 ≤ i) (h2 : i < 2147483648) :
    toInt32 (toUInt32 i) = i := by
  unfold toUInt32 toInt32; split <;> omega

theorem toUInt32_of_nonneg (i : Int) (h1 : 0 ≤ i) (h2 : i < 4294967296) :
    toUInt32 i = i.toNat := by
  unfold toUInt32; omega

theorem toInt32_of_lt (n : Nat) (h : n < 2147483648) : toInt32 n = (n : Int) := by
  unfold toInt32; split <;> omega

/-! ## The window -/

theorem addSample_temp_sum (v : Int) (s : State) :
    toUInt32 (addSample v s).temp_sum = toUInt32 (s.temp_sum + v) := by
  simp only [addSample]
  rw [toUInt32_toInt32, toUInt32_add]

theorem addSample_sample_amnt (v : Int) (s : State) :
    (addSample v s).sample_amnt = (s.sample_amnt + 1) % 4294967296 := rfl

theorem integrate_nil (s : State) : integrate [] s = s := rfl

theorem integrate_cons (v : Int) (vs : List Int) (s : State) :
    integrate (v :: vs) s = integrate vs (addSample v s) := rfl

theorem integrate_append (vs ws : List Int) (s : State) :
    integrate (vs ++ ws) s = integrate ws (integrate vs s) := by
  simp [integrate, List.foldl_append]

/-- After integrating `vs` the unsigned image of `temp_sum` is the sum of the
samples modulo 2^32. -/
theorem integrate_temp_sum (vs : List Int) (s : State) :
    toUInt32 (integrate vs s).temp_sum = toUInt32 (s.temp_sum + vs.sum) := by
  induction vs generalizing s with
  | nil => simp [integrate_nil]
  | cons v vs ih =>
    rw [integrate_cons, ih, List.sum_cons]
    have h := addSample_temp_sum v s
    unfold toUInt32 at h ⊢
    omega

/-- After integrating `vs` the counter is the number of samples modulo 2^32. -/
theorem integrate_sample_amnt (vs : List Int) (s : State) (h : s.sample_amnt < 4294967296) :
    (integrate vs s).sample_amnt = (s.sample_amnt + vs.length) % 4294967296 := by
  induction vs generalizing s with
  | nil => simp only [integrate_nil, List.length_nil]; omega
  | cons v vs ih =>
    rw [integrate_cons, ih _ (by rw [addSample_sample_amnt]; omega), addSample_sample_amnt,
      List.length_cons]
    omega

theorem toInt32_congr (a b : Nat) (h : a % 4294967296 = b % 4294967296) :
    toInt32 a = toInt32 b := by
  unfold toInt32; rw [h]

/-- The signed value of `temp_sum` after integrating a non-empty `vs` from an
empty window. -/
theorem integrate_temp_sum_signed (vs : List Int) (s : State) (h0 : s.temp_sum = 0)
    (hne : vs ≠ []) : (integrate vs s).temp_sum = toInt32 (toUInt32 vs.sum) := by
  obtain ⟨ws, w, rfl⟩ : ∃ ws w, vs = ws ++ [w] := by
    rcases List.eq_nil_or_concat vs with h | ⟨ws, w, h⟩
    · exact absurd h hne
    · exact ⟨ws, w, by simpa using h⟩
  rw [integrate_append, integrate_cons, integrate_nil]
  have h1 := integrate_temp_sum ws s
  rw [h0, zero_add] at h1
  simp only [addSample]
  apply toInt32_congr
  rw [h1, toUInt32_add, List.sum_append, List.sum_singleton]
  have := toUInt32_lt (ws.sum + w)
  omega

/-- The average of a window of non-negative samples that started empty. -/
theorem windowAverage_nonneg (vs : List Int) (s : State) (h0 : s.temp_sum = 0)
    (hc : s.sample_amnt = 0) (hne : vs ≠ []) (hlen : vs.length < 4294967296)
    (hsum0 : 0 ≤ vs.sum) (hsum : vs.sum < 4294967296)
    (hq : vs.sum / (vs.length : Int) < 2147483648) :
    windowAverage vs s = some (vs.sum / (vs.length : Int)) := by
  have hlen0 : 0 < vs.length := List.length_pos.mpr hne
  have hcnt : (integrate vs s).sample_amnt = vs.length := by
    rw [integrate_sample_amnt vs s (by omega), hc]; omega
  have hnum : toUInt32 (integrate vs s).temp_sum = vs.sum.toNat := by
    rw [integrate_temp_sum, h0, zero_add, toUInt32_of_nonneg _ hsum0 hsum]
  unfold windowAverage boxcar
  rw [hcnt, hnum, if_neg (by omega)]
  have hcast : ((vs.sum.toNat / vs.length : Nat) : Int) = vs.sum / (vs.length : Int) := by
    rw [Int.ofNat_ediv, Int.toNat_of_nonneg hsum0]
  rw [toInt32_of_lt _ (by omega), hcast]

/-! ## Formatting lemmas -/

/-- The composed text, piece by piece. -/
theorem formatReading_eq (temp : Int) (sSPIval sI2Cval : Nat) :
    formatReading temp sSPIval sI2Cval =
      "\x7b \"ADC\":".toList ++ printInt temp ++ ", \"LMD35\":".toList ++
        printInt (dec_first temp) ++ ".".toList ++ printInt (dec_last temp) ++
        ",\n                \"SPI\":".toList ++ printInt ((sSPIval / 10 : Nat) : Int) ++
        ".".toList ++ printInt ((sSPIval % 10 : Nat) : Int) ++ ", \"I2C\":".toList ++
        printInt (sI2Cval : Int) ++ " \x7d\r\n".toList := by
  simp only [List.append_assoc]
  rfl

theorem printInt_digit (n : Nat) (h : n < 10) : printInt (n : Int) = [digitChar n] := by
  unfold printInt natToDec
  rw [if_neg (by omega)]
  simp [decDigits, h]

theorem dec_last_ofNat (n : Nat) : dec_last (n : Int) = ((n % 10 : Nat) : Int) := rfl

theorem dec_last_negSucc (m : Nat) :
    dec_last (Int.negSucc m) = -(((m + 1) % 10 : Nat) : Int) := rfl

theorem dec_last_bounds (temp : Int) : -9 ≤ dec_last temp ∧ dec_last temp ≤ 9 := by
  cases temp with
  | ofNat n => rw [Int.ofNat_eq_coe, dec_last_ofNat]; omega
  | negSucc m => rw [dec_last_negSucc]; omega

theorem dec_last_nonneg (temp : Int) (h : 0 ≤ temp) : 0 ≤ dec_last temp :=
  Int.tmod_nonneg 10 h

theorem dec_last_nonpos (temp : Int) (h : temp < 0) : dec_last temp ≤ 0 := by
  cases temp with
  | ofNat n => rw [Int.ofNat_eq_coe] at h; omega
  | negSucc m => rw [dec_last_negSucc]; omega

theorem dec_decomposition (temp : Int) : temp = 10 * dec_first temp + dec_last temp := by
  unfold dec_first dec_last
  have := Int.tmod_add_tdiv temp 10
  omega

theorem dec_last_digit (temp : Int) (h : 0 ≤ temp) :
    printInt (dec_last temp) = [digitChar temp.toNat] := by
  obtain ⟨n, rfl⟩ := Int.eq_ofNat_of_zero_le h
  rw [dec_last_ofNat, printInt_digit _ (Nat.mod_lt _ (by decide))]
  simp [digitChar]

/-! ## One pass of the loop -/

theorem beforeEmission_count_flag (inp : Inputs) (s : State) :
    (beforeEmission inp s).count_flag = s.count_flag := by
  simp only [beforeEmission, analogIntegrate, digitalPoll, serialService, record, addSample]
  split <;> split <;> rfl

theorem beforeEmission_window (inp : Inputs) (s : State) :
    (beforeEmission inp s).temp_sum =
      (if inp.endConversion then addSample inp.mVolts s else s).temp_sum ∧
    (beforeEmission inp s).sample_amnt =
      (if inp.endConversion then addSample inp.mVolts s else s).sample_amnt := by
  simp only [beforeEmission, analogIntegrate, digitalPoll, serialService, record, addSample]
  split <;> split <;> exact ⟨rfl, rfl⟩

theorem beforeEmission_spi_flag (inp : Inputs) (s : State) :
    (beforeEmission inp s).spi_flag = if s.spi_flag = 1 then 0 else s.spi_flag := by
  simp only [beforeEmission, analogIntegrate, digitalPoll, serialService, record, addSample]
  split <;> split <;> rfl

theorem readingLines_append (t u : List Event) :
    readingLines (t ++ u) = readingLines t + readingLines u := by
  simp [readingLines]

theorem spiWrites_append (t u : List Event) :
    spiWrites (t ++ u) = spiWrites t + spiWrites u := by
  simp [spiWrites]

theorem spiReads_append (t u : List Event) :
    spiReads (t ++ u) = spiReads t + spiReads u := by
  simp [spiReads]

theorem averages_append (t u : List Event) :
    averages (t ++ u) = averages t ++ averages u := by
  simp [averages]

theorem beforeEmission_trace (inp : Inputs) (s : State) :
    readingLines (beforeEmission inp s).trace = readingLines s.trace ∧
    averages (beforeEmission inp s).trace = averages s.trace ∧
    spiWrites (beforeEmission inp s).trace =
      spiWrites s.trace + (if s.spi_flag = 1 then 1 else 0) ∧
    spiReads (beforeEmission inp s).trace =
      spiReads s.trace + (if s.spi_flag = 1 then 1 else 0) := by
  simp only [beforeEmission, analogIntegrate, digitalPoll, serialService, record, addSample]
  split <;> split <;>
    simp [readingLines_append, averages_append, spiWrites_append, spiReads_append] <;>
    simp [readingLines, averages, spiWrites, spiReads]

/-- The emission block when the flag is clear does nothing. -/
theorem emission_idle (s : State) (h : s.count_flag ≠ 1) : emission s = Outcome.ok s := by
  simp [emission, h]

/-- The emission block on an empty window stops at the division. -/
theorem emission_empty (s : State) (h : s.count_flag = 1) (h0 : s.sample_amnt = 0) :
    emission s =
      Outcome.divByZero (record Event.CyGlobalIntDisable { s with intEnabled := false }) := by
  simp [emission, h, boxcar, record, h0]

/-- The emission block on a non-empty window: the calls it makes, in order, and
the state it leaves. -/
theorem emission_emit (s : State) (h : s.count_flag = 1) (h0 : s.sample_amnt ≠ 0) :
    emission s = Outcome.ok
      { s with
        temp_sum := 0
        sample_amnt := 0
        count_flag := 0
        intEnabled := true
        trace := s.trace ++
          [Event.CyGlobalIntDisable,
           Event.average s.temp_sum s.sample_amnt (toInt32 (toUInt32 s.temp_sum / s.sample_amnt)),
           Event.UART_1_PutString
             (formatReading (toInt32 (toUInt32 s.temp_sum / s.sample_amnt)) s.sSPIval s.sI2Cval)
             false,
           Event.CyGlobalIntEnable] } := by
  simp [emission, h, boxcar, record, h0]

/-- The emission block never touches the serial flag or the serial bus. -/
theorem emission_spi (s : State) :
    (emission s).state.spi_flag = s.spi_flag ∧
    spiWrites (emission s).state.trace = spiWrites s.trace ∧
    spiReads (emission s).state.trace = spiReads s.trace := by
  by_cases h : s.count_flag = 1
  · by_cases h0 : s.sample_amnt = 0
    · rw [emission_empty s h h0]
      simp [Outcome.state, record, spiWrites, spiReads]
    · rw [emission_emit s h h0]
      simp [Outcome.state, spiWrites, spiReads]
  · rw [emission_idle s h]
    exact ⟨rfl, rfl, rfl⟩

/-- One pass services the serial bus exactly when the flag is set, and leaves
the flag clear if it was 0 or 1. -/
theorem loopIter_spi (inp : Inputs) (s : State) :
    (loopIter inp s).state.spi_flag = (if s.spi_flag = 1 then 0 else s.spi_flag) ∧
    spiWrites (loopIter inp s).state.trace =
      spiWrites s.trace + (if s.spi_flag = 1 then 1 else 0) ∧
    spiReads (loopIter inp s).state.trace =
      spiReads s.trace + (if s.spi_flag = 1 then 1 else 0) := by
  obtain ⟨h1, h2, h3⟩ := emission_spi (beforeEmission inp s)
  obtain ⟨_, _, h5, h6⟩ := beforeEmission_trace inp s
  unfold loopIter
  rw [h1, h2, h3, beforeEmission_spi_flag, h5, h6]
  exact ⟨rfl, rfl, rfl⟩

theorem clockISR_spi (s : State) :
    (clockISR s).spi_flag = s.spi_flag ∧ spiWrites (clockISR s).trace = spiWrites s.trace ∧
    spiReads (clockISR s).trace = spiReads s.trace := by
  simp [clockISR, record, spiWrites, spiReads]

theorem spiISR_iterate (k : Nat) (s : State) :
    (1 ≤ k → (spiISR^[k] s).spi_flag = 1) ∧
    spiWrites (spiISR^[k] s).trace = spiWrites s.trace ∧
    spiReads (spiISR^[k] s).trace = spiReads s.trace := by
  induction k generalizing s with
  | zero => simp
  | succ k ih =>
    rw [Function.iterate_succ_apply']
    obtain ⟨_, h2, h3⟩ := ih s
    refine ⟨fun _ => rfl, ?_, ?_⟩
    · rw [← h2]; simp [spiISR, record, spiWrites]
    · rw [← h3]; simp [spiISR, record, spiReads]

/-- With the serial flag clear and no further `spiISR`, no schedule touches the
serial bus. -/
theorem run_no_spi (rest : List Step) (s : State) (hflag : s.spi_flag = 0)
    (hrest : Step.spi ∉ rest) :
    (run rest s).state.spi_flag = 0 ∧
    spiWrites (run rest s).state.trace = spiWrites s.trace ∧
    spiReads (run rest s).state.trace = spiReads s.trace := by
  induction rest generalizing s with
  | nil => exact ⟨hflag, rfl, rfl⟩
  | cons st rest ih =>
    have hrest1 : Step.spi ∉ rest := fun h => hrest (List.mem_cons_of_mem _ h)
    cases st with
    | spi => exact absurd (List.mem_cons_self _ _) hrest
    | clock =>
      obtain ⟨c1, c2, c3⟩ := clockISR_spi s
      obtain ⟨i1, i2, i3⟩ := ih (clockISR s) (by rw [c1, hflag]) hrest1
      simp only [run]
      exact ⟨i1, by rw [i2, c2], by rw [i3, c3]⟩
    | iter inp =>
      obtain ⟨l1, l2, l3⟩ := loopIter_spi inp s
      rw [hflag] at l1 l2 l3
      simp only [run]
      cases hl : loopIter inp s with
      | ok s1 =>
        rw [hl] at l1 l2 l3
        obtain ⟨i1, i2, i3⟩ := ih s1 (by simpa [Outcome.state] using l1) hrest1
        simp only [Outcome.state] at l2 l3
        exact ⟨i1, by rw [i2, l2]; rfl, by rw [i3, l3]; rfl⟩
      | divByZero s1 =>
        rw [hl] at l1 l2 l3
        simpa [Outcome.state] using ⟨l1, l2, l3⟩

/-! ## Windows across a run -/

/-- The windows closed and the window left open hold every sample once, in
order. -/
theorem windows_partition (steps : List Step) (flag : Bool) (cur : List Int) :
    (windows steps flag cur).flatten ++ pending steps flag cur = cur ++ samples steps := by
  induction steps generalizing flag cur with
  | nil => simp [windows, pending, samples]
  | cons st rest ih =>
    cases st with
    | clock => simpa [windows, pending, samples] using ih true cur
    | spi => simpa [windows, pending, samples] using ih flag cur
    | iter inp =>
      cases flag with
      | true =>
        have h := ih false []
        simp only [windows, pending, samples, if_true, List.flatten_cons, List.append_assoc, h]
        simp [extend]
        split <;> simp
      | false =>
        have h := ih false (extend inp cur)
        simp only [windows, pending, samples, Bool.false_eq_true, if_false, h]
        simp [extend]
        split <;> simp

theorem holds_extend (inp : Inputs) (s : State) (cur : List Int) (h : holds s cur) :
    holds (beforeEmission inp s) (extend inp cur) := by
  obtain ⟨h1, h2⟩ := h
  obtain ⟨w1, w2⟩ := beforeEmission_window inp s
  unfold holds extend
  rw [w1, w2]
  split
  · constructor
    · simp only [addSample]
      apply toInt32_congr
      rw [h1, toUInt32_toInt32, List.sum_append, List.sum_singleton, ← toUInt32_add]
      omega
    · rw [addSample_sample_amnt, h2, List.length_append, List.length_singleton]
      omega
  · exact ⟨h1, h2⟩

theorem holds_representable (s : State) (w : List Int) (h : holds s w) (hw : representable w) :
    s.temp_sum = w.sum ∧ s.sample_amnt = w.length ∧ s.sample_amnt ≠ 0 := by
  obtain ⟨h1, h2⟩ := h
  obtain ⟨r1, r2, r3, r4⟩ := hw
  have : 0 < w.length := List.length_pos.mpr r1
  rw [h1, h2, toInt32_toUInt32 _ r3 r4]
  omega

theorem holds_clockISR (s : State) (cur : List Int) (h : holds s cur) :
    holds (clockISR s) cur := h

theorem holds_spiISR (s : State) (cur : List Int) (h : holds s cur) :
    holds (spiISR s) cur := h

/-- A pass with the period flag set and a non-empty window: the Reading it
emits and the state it leaves. -/
theorem loopIter_emit (inp : Inputs) (s : State) (h : s.count_flag = 1)
    (h0 : (beforeEmission inp s).sample_amnt ≠ 0) :
    ∃ s1, loopIter inp s = Outcome.ok s1 ∧
      s1.temp_sum = 0 ∧ s1.sample_amnt = 0 ∧ s1.count_flag = 0 ∧ s1.intEnabled = true ∧
      averages s1.trace = averages s.trace ++
        [((beforeEmission inp s).temp_sum, (beforeEmission inp s).sample_amnt)] ∧
      readingLines s1.trace = readingLines s.trace + 1 := by
  have hb : (beforeEmission inp s).count_flag = 1 := by rw [beforeEmission_count_flag, h]
  obtain ⟨t1, t2, _, _⟩ := beforeEmission_trace inp s
  refine ⟨_, emission_emit _ hb h0, rfl, rfl, rfl, rfl, ?_, ?_⟩
  · simp only [averages_append, t2]
    simp [averages]
  · simp only [readingLines_append, t1]
    simp [readingLines]

/-- A pass with the period flag clear emits nothing. -/
theorem loopIter_idle (inp : Inputs) (s : State) (h : s.count_flag ≠ 1) :
    loopIter inp s = Outcome.ok (beforeEmission inp s) :=
  emission_idle _ (by rw [beforeEmission_count_flag]; exact h)

/-- Along a schedule, every division of line 142 has the sum and the number of
the samples of its window as operands. -/
theorem run_windows (steps : List Step) (s : State) (flag : Bool) (cur : List Int)
    (hs : holds s cur) (hf : s.count_flag = 1 ↔ flag = true)
    (hw : ∀ w ∈ windows steps flag cur, representable w) :
    ∃ s1, run steps s = Outcome.ok s1 ∧
      averages s1.trace =
        averages s.trace ++ (windows steps flag cur).map (fun w => (w.sum, w.length)) ∧
      readingLines s1.trace = readingLines s.trace + (windows steps flag cur).length ∧
      holds s1 (pending steps flag cur) := by
  induction steps generalizing s flag cur with
  | nil => exact ⟨s, rfl, by simp [windows], by simp [windows], hs⟩
  | cons st rest ih =>
    cases st with
    | clock =>
      obtain ⟨s1, r1, r2, r3, r4⟩ :=
        ih (clockISR s) true cur (holds_clockISR s cur hs) (by simp [clockISR, record]) hw
      refine ⟨s1, r1, ?_, ?_, r4⟩
      · rw [r2]; simp [clockISR, record, averages, windows]
      · rw [r3]; simp [clockISR, record, readingLines, windows]
    | spi =>
      obtain ⟨s1, r1, r2, r3, r4⟩ :=
        ih (spiISR s) flag cur (holds_spiISR s cur hs) (by simpa [spiISR, record] using hf) hw
      refine ⟨s1, r1, ?_, ?_, r4⟩
      · rw [r2]; simp [spiISR, record, averages, windows]
      · rw [r3]; simp [spiISR, record, readingLines, windows]
    | iter inp =>
      have hb := holds_extend inp s cur hs
      cases flag with
      | true =>
        have hflag : s.count_flag = 1 := hf.mpr rfl
        have hrep : representable (extend inp cur) := hw _ (by simp [windows])
        obtain ⟨n1, n2, n3⟩ := holds_representable _ _ hb hrep
        obtain ⟨s1, e1, e2, e3, e4, _, e6, e7⟩ := loopIter_emit inp s hflag n3
        obtain ⟨s2, r1, r2, r3, r4⟩ := ih s1 false [] (by simp [holds, e2, e3, toUInt32, toInt32])
          (by simp [e4]) (fun w hmem => hw w (by simp [windows, hmem]))
        refine ⟨s2, by simp only [run, e1]; exact r1, ?_, ?_, by simpa [pending] using r4⟩
        · rw [r2, e6, n1, n2]; simp [windows]
        · rw [r3, e7]; simp [windows]; omega
      | false =>
        have hflag : s.count_flag ≠ 1 := fun h => by simpa using hf.mp h
        have e1 := loopIter_idle inp s hflag
        obtain ⟨t1, t2, _, _⟩ := beforeEmission_trace inp s
        obtain ⟨s2, r1, r2, r3, r4⟩ := ih (beforeEmission inp s) false (extend inp cur) hb
          (by rw [beforeEmission_count_flag]; simpa using hflag)
          (fun w hmem => hw w (by simpa [windows] using hmem))
        refine ⟨s2, by simp only [run, e1]; exact r1, ?_, ?_, by simpa [pending] using r4⟩
        · rw [r2, t2]; simp [windows]
        · rw [r3, t1]; simp [windows]

/-! ## The claims -/

/-- C1 (counterexample): the first window after startup with the single sample
10 is averaged to 5, not to 10, because `sample_amnt` starts at 1; and a window
with the two samples -1 and -1 (stored in the `uint32` `Output` as 4294967295)
is averaged to 2147483647, not to -1, because the division is unsigned. -/
theorem C1_counterexample :
    windowAverage [10] mainInit = some 5 ∧
    windowAverage [10] mainInit ≠
      some (([10] : List Int).sum / (([10] : List Int).length : Int)) ∧
    windowAverage [-1, -1] afterFirstEmission = some 2147483647 ∧
    windowAverage [-1, -1] afterFirstEmission ≠
      some (([-1, -1] : List Int).sum / (([-1, -1] : List Int).length : Int)) := by
  decide

/-- C1 (amended): for every window that starts from the reset an emission
leaves (`temp_sum = 0`, `sample_amnt = 0`) and integrates `N ≥ 1` samples
(`N < 2^32`), all non-negative, with a sum below 2^32 and a quotient below 2^31,
the average computed at line 142 equals `floor((v_1 + ... + v_N) / N)`. -/
theorem C1_boxcar_average_after_reset (vs : List Int) (s : State)
    (h0 : s.temp_sum = 0) (hc : s.sample_amnt = 0) (hne : vs ≠ [])
    (hlen : vs.length < 4294967296) (hpos : ∀ v ∈ vs, 0 ≤ v)
    (hsum : vs.sum < 4294967296) (hq : vs.sum / (vs.length : Int) < 2147483648) :
    windowAverage vs s = some (vs.sum / (vs.length : Int)) :=
  windowAverage_nonneg vs s h0 hc hne hlen (List.sum_nonneg hpos) hsum hq

/-- C1 (witness): three samples after the first emission average to
`floor(706 / 3) = 235`. -/
theorem C1_boxcar_average_after_reset_witness :
    windowAverage [230, 235, 241] afterFirstEmission = some 235 :=
  C1_boxcar_average_after_reset [230, 235, 241] afterFirstEmission (by decide) (by decide)
    (by decide) (by decide) (by decide) (by decide) (by decide)

/-- C2 (code at the failing input): after the first emission the window is
`temp_sum = 0`, `sample_amnt = 0`; when the period elapses again before any
conversion finishes, the pass reaches line 142 with a zero divisor: the
division by zero is executed, no Reading is pushed, and the same happens in
every state with the flag set and an empty window. -/
theorem C2_empty_window_divides_by_zero :
    (∃ s, run [Step.clock, Step.iter noConversion] afterFirstEmission = Outcome.divByZero s ∧
      s.temp_sum = 0 ∧ s.sample_amnt = 0 ∧
      readingLines s.trace = readingLines afterFirstEmission.trace) ∧
    (∀ (inp : Inputs) (s : State), s.count_flag = 1 → s.sample_amnt = 0 →
      inp.endConversion = false → ∃ s1, loopIter inp s = Outcome.divByZero s1) := by
  refine ⟨⟨_, rfl, rfl, rfl, rfl⟩, ?_⟩
  intro inp s hf h0 hend
  have hb : (beforeEmission inp s).count_flag = 1 := by rw [beforeEmission_count_flag, hf]
  have hw : (beforeEmission inp s).sample_amnt = 0 := by
    rw [(beforeEmission_window inp s).2, hend]; simpa using h0
  exact ⟨_, emission_empty _ hb hw⟩

/-- C3 (code at the failing input): the Reading of the specification's own
example (average 235, serial 100, digital 24) is composed without any length
check into 67 characters, 68 bytes with the NUL, and is pushed to the UART;
every Reading needs more than the 40 bytes of `TransmitBuffer`. -/
theorem C3_sprintf_exceeds_buffer :
    (∃ s, run [Step.spi, Step.clock,
          Step.iter { rxData := 100, i2cByte := 24, endConversion := true, mVolts := 235 }]
        afterFirstEmission = Outcome.ok s ∧
      Event.UART_1_PutString (formatReading 235 100 24) false ∈ s.trace) ∧
    (formatReading 235 100 24).length + 1 = 68 ∧
    TRANSMIT_BUFFER_SIZE = 40 ∧
    (∀ (temp : Int) (sSPIval sI2Cval : Nat),
      sprintfOverflows (formatReading temp sSPIval sI2Cval) = true) := by
  refine ⟨⟨_, rfl, by decide⟩, by decide, rfl, ?_⟩
  intro temp sSPIval sI2Cval
  rw [formatReading_eq]
  simp [sprintfOverflows, TRANSMIT_BUFFER_SIZE]
  omega

/-- C4 (code at the failing input): for the average 235, the serial value 100
and the digital value 24 the text composed is not the single line of the
claim: between `23.5,` and the `SPI` field it holds a line feed and sixteen
blanks, the characters of the broken string literal of lines 149-150. -/
theorem C4_reading_text_has_line_break :
    formatReading 235 100 24 =
      ("\x7b \"ADC\":235, \"LMD35\":23.5," ++ "\n                " ++
        "\"SPI\":10.0, \"I2C\":24 \x7d\r\n").toList ∧
    formatReading 235 100 24 ≠
      "\x7b \"ADC\":235, \"LMD35\":23.5, \"SPI\":10.0, \"I2C\":24 \x7d\r\n".toList := by
  decide

/-- C5: in every state with `count_flag` set, a pass whose window is non-empty
when the flag is consumed (`sample_amnt` is not zero at line 136) pushes exactly
one Reading line and leaves `count_flag` clear; the next pass, with no
`clockISR` in between, pushes none and leaves it clear. -/
theorem C5_one_reading_per_period_flag (inp1 inp2 : Inputs) (s : State)
    (hflag : s.count_flag = 1) (hwin : (beforeEmission inp1 s).sample_amnt ≠ 0) :
    ∃ s1 s2, loopIter inp1 s = Outcome.ok s1 ∧
      readingLines s1.trace = readingLines s.trace + 1 ∧ s1.count_flag = 0 ∧
      loopIter inp2 s1 = Outcome.ok s2 ∧
      readingLines s2.trace = readingLines s1.trace ∧ s2.count_flag = 0 := by
  obtain ⟨s1, e1, _, _, e4, _, _, e7⟩ := loopIter_emit inp1 s hflag hwin
  have hidle : s1.count_flag ≠ 1 := by rw [e4]; decide
  refine ⟨s1, beforeEmission inp2 s1, e1, e7, e4, loopIter_idle inp2 s1 hidle,
    (beforeEmission_trace inp2 s1).1, ?_⟩
  rw [beforeEmission_count_flag, e4]

/-- C5 (witness): the period elapses after the first emission and a pass
integrates one sample. -/
theorem C5_one_reading_per_period_flag_witness :
    ∃ s1 s2, loopIter (conversion 235) (clockISR afterFirstEmission) = Outcome.ok s1 ∧
      readingLines s1.trace = readingLines (clockISR afterFirstEmission).trace + 1 ∧
      s1.count_flag = 0 ∧
      loopIter noConversion s1 = Outcome.ok s2 ∧
      readingLines s2.trace = readingLines s1.trace ∧ s2.count_flag = 0 :=
  C5_one_reading_per_period_flag (conversion 235) noConversion (clockISR afterFirstEmission)
    (by decide) (by decide)

/-- C6: after `k ≥ 1` firings of `spiISR` the flag is pending once; the first
pass performs exactly one `SPIM_WriteTxData` and one `SPIM_ReadRxData` and
clears `spi_flag`; whatever passes and `clockISR` firings follow (no `spiISR`),
the totals stay at one exchange and `spi_flag` stays clear. -/
theorem C6_spi_signal_serviced_once (k : Nat) (hk : 1 ≤ k) (s : State) (inp : Inputs)
    (rest : List Step) (hrest : Step.spi ∉ rest) :
    (spiISR^[k] s).spi_flag = 1 ∧
    spiWrites (loopIter inp (spiISR^[k] s)).state.trace = spiWrites s.trace + 1 ∧
    spiReads (loopIter inp (spiISR^[k] s)).state.trace = spiReads s.trace + 1 ∧
    (loopIter inp (spiISR^[k] s)).state.spi_flag = 0 ∧
    spiWrites (run (Step.iter inp :: rest) (spiISR^[k] s)).state.trace = spiWrites s.trace + 1 ∧
    spiReads (run (Step.iter inp :: rest) (spiISR^[k] s)).state.trace = spiReads s.trace + 1 ∧
    (run (Step.iter inp :: rest) (spiISR^[k] s)).state.spi_flag = 0 := by
  obtain ⟨k1, k2, k3⟩ := spiISR_iterate k s
  have hf := k1 hk
  obtain ⟨l1, l2, l3⟩ := loopIter_spi inp (spiISR^[k] s)
  rw [hf] at l1 l2 l3
  simp only [if_true] at l1 l2 l3
  rw [k2] at l2
  rw [k3] at l3
  refine ⟨hf, l2, l3, l1, ?_⟩
  simp only [run]
  cases hl : loopIter inp (spiISR^[k] s) with
  | ok s1 =>
    rw [hl] at l1 l2 l3
    simp only [Outcome.state] at l1 l2 l3
    obtain ⟨r1, r2, r3⟩ := run_no_spi rest s1 l1 hrest
    exact ⟨by rw [r2, l2], by rw [r3, l3], r1⟩
  | divByZero s1 =>
    rw [hl] at l1 l2 l3
    exact ⟨l2, l3, l1⟩

/-- C6 (witness): three firings, then three passes with a `clockISR` between
them. -/
theorem C6_spi_signal_serviced_once_witness :
    (spiISR^[3] afterFirstEmission).spi_flag = 1 ∧
    spiWrites (loopIter (conversion 235) (spiISR^[3] afterFirstEmission)).state.trace =
      spiWrites afterFirstEmission.trace + 1 ∧
    spiReads (loopIter (conversion 235) (spiISR^[3] afterFirstEmission)).state.trace =
      spiReads afterFirstEmission.trace + 1 ∧
    (loopIter (conversion 235) (spiISR^[3] afterFirstEmission)).state.spi_flag = 0 ∧
    spiWrites (run (Step.iter (conversion 235) ::
        [Step.clock, Step.iter (conversion 240), Step.iter noConversion])
      (spiISR^[3] afterFirstEmission)).state.trace = spiWrites afterFirstEmission.trace + 1 ∧
    spiReads (run (Step.iter (conversion 235) ::
        [Step.clock, Step.iter (conversion 240), Step.iter noConversion])
      (spiISR^[3] afterFirstEmission)).state.trace = spiReads afterFirstEmission.trace + 1 ∧
    (run (Step.iter (conversion 235) ::
        [Step.clock, Step.iter (conversion 240), Step.iter noConversion])
      (spiISR^[3] afterFirstEmission)).state.spi_flag = 0 :=
  C6_spi_signal_serviced_once 3 (by decide) afterFirstEmission (conversion 235)
    [Step.clock, Step.iter (conversion 240), Step.iter noConversion] (by decide)

/-- C7 (counterexample): from startup, two samples 10 and 20 and then the
period: the division of the first emission has the operands (30, 3), not the
sum and the number (30, 2) of the samples of its window, because `sample_amnt`
starts at 1. After a reset, the samples 2147483647, 2147483647 and 2 add up to
2^32 and the numerator of the division is 0. After a reset, a period with no
sample stops at the division by zero with the flag still set and the window
not emitted. -/
theorem C7_counterexample :
    (∃ s1, run [Step.iter (conversion 10), Step.iter (conversion 20), Step.clock,
          Step.iter noConversion] mainInit = Outcome.ok s1 ∧
      averages s1.trace = [(30, 3)] ∧
      (windows [Step.iter (conversion 10), Step.iter (conversion 20), Step.clock,
          Step.iter noConversion] false []).map (fun w => (w.sum, w.length)) = [(30, 2)]) ∧
    (∃ s1, run [Step.iter (conversion 2147483647), Step.iter (conversion 2147483647),
          Step.clock, Step.iter (conversion 2)] afterFirstEmission = Outcome.ok s1 ∧
      averages s1.trace = averages afterFirstEmission.trace ++ [(0, 3)] ∧
      (windows [Step.iter (conversion 2147483647), Step.iter (conversion 2147483647),
          Step.clock, Step.iter (conversion 2)] false []).map (fun w => (w.sum, w.length)) =
        [(4294967296, 3)]) ∧
    (∃ s1, run [Step.clock, Step.iter noConversion] afterFirstEmission =
        Outcome.divByZero s1 ∧
      s1.count_flag = 1 ∧ averages s1.trace = averages afterFirstEmission.trace) :=
  ⟨⟨_, rfl, by decide, by decide⟩, ⟨_, rfl, by decide, by decide⟩,
    ⟨_, rfl, by decide, by decide⟩⟩

/-- C7 (amended): a run that starts from the window an emission leaves
(`temp_sum = 0`, `sample_amnt = 0`, flag clear) and whose windows are non-empty
and fit the variables completes, and its emissions are exactly its windows: the
division of each emission has as operands the sum and the number of the samples
integrated since the previous reset (the sample of the consuming pass
included), one Reading is pushed per window, the closed windows and the open
one hold every integrated sample once, in order, and each emitting pass leaves
the window at `temp_sum = 0`, `sample_amnt = 0` with `count_flag` clear. -/
theorem C7_window_accounting (steps : List Step) (s : State)
    (h0 : s.temp_sum = 0) (hc : s.sample_amnt = 0) (hf : s.count_flag = 0)
    (hw : ∀ w ∈ windows steps false [], representable w) :
    (∃ s1, run steps s = Outcome.ok s1 ∧
      averages s1.trace =
        averages s.trace ++ (windows steps false []).map (fun w => (w.sum, w.length)) ∧
      readingLines s1.trace = readingLines s.trace + (windows steps false []).length) ∧
    (windows steps false []).flatten ++ pending steps false [] = samples steps ∧
    (∀ (inp : Inputs) (s0 : State), s0.count_flag = 1 →
      (beforeEmission inp s0).sample_amnt ≠ 0 →
      ∃ s2, loopIter inp s0 = Outcome.ok s2 ∧
        s2.temp_sum = 0 ∧ s2.sample_amnt = 0 ∧ s2.count_flag = 0) := by
  refine ⟨?_, ?_, ?_⟩
  · obtain ⟨s1, r1, r2, r3, _⟩ := run_windows steps s false []
      (by simp [holds, h0, hc, toUInt32, toInt32]) (by simp [hf]) hw
    exact ⟨s1, r1, r2, r3⟩
  · simpa using windows_partition steps false []
  · intro inp s0 hflag hne
    obtain ⟨s2, e1, e2, e3, e4, _⟩ := loopIter_emit inp s0 hflag hne
    exact ⟨s2, e1, e2, e3, e4⟩

/-- C7 (witness): two periods after the first emission, with three samples in
the first window and one in the second. -/
theorem C7_window_accounting_witness :
    (∃ s1, run [Step.iter (conversion 230), Step.iter (conversion 240), Step.clock,
          Step.iter (conversion 235), Step.iter noConversion, Step.clock,
          Step.iter (conversion 100)] afterFirstEmission = Outcome.ok s1 ∧
      averages s1.trace = averages afterFirstEmission.trace ++ [(705, 3), (100, 1)] ∧
      readingLines s1.trace = readingLines afterFirstEmission.trace + 2) ∧
    [230, 240, 235, 100] = samples [Step.iter (conversion 230), Step.iter (conversion 240),
      Step.clock, Step.iter (conversion 235), Step.iter noConversion, Step.clock,
      Step.iter (conversion 100)] :=
  have h := C7_window_accounting [Step.iter (conversion 230), Step.iter (conversion 240),
      Step.clock, Step.iter (conversion 235), Step.iter noConversion, Step.clock,
      Step.iter (conversion 100)] afterFirstEmission (by decide) (by decide) (by decide)
    (by
      intro w hmem
      have hcases : w = [230, 240, 235] ∨ w = [100] := by
        simpa [windows, extend, conversion, noConversion] using hmem
      rcases hcases with rfl | rfl <;> (unfold representable; decide))
  ⟨h.1, h.2.1⟩

/-- C8: for every sample value `v` of a C `int`, a window that was just reset
(`temp_sum = 0`, `sample_amnt = 0`) and then integrates the one sample `v` is
averaged to `v`; the pass that integrates `v` with the period flag set divides
`v` by 1 and emits it. -/
theorem C8_single_sample_average (v : Int) (s : State)
    (hlo : -2147483648 ≤ v) (hhi : v < 2147483648)
    (h0 : s.temp_sum = 0) (hc : s.sample_amnt = 0) :
    windowAverage [v] s = some v ∧
    (∀ inp : Inputs, inp.endConversion = true → inp.mVolts = v → s.count_flag = 1 →
      ∃ s1, loopIter inp s = Outcome.ok s1 ∧
        averages s1.trace = averages s.trace ++ [(v, 1)] ∧ boxcar v 1 = some v) := by
  have hsum : (integrate [v] s).temp_sum = v := by
    rw [integrate_temp_sum_signed [v] s h0 (by simp), List.sum_singleton,
      toInt32_toUInt32 v hlo hhi]
  have hcnt : (integrate [v] s).sample_amnt = 1 := by
    rw [integrate_sample_amnt [v] s (by omega), hc]; rfl
  have hbox : boxcar v 1 = some v := by
    simp only [boxcar, Nat.div_one]
    rw [if_neg (by decide), toInt32_toUInt32 v hlo hhi]
  refine ⟨by unfold windowAverage; rw [hsum, hcnt, hbox], ?_⟩
  intro inp hend hmv hflag
  obtain ⟨w1, w2⟩ := beforeEmission_window inp s
  rw [hend, hmv] at w1 w2
  simp only [if_true] at w1 w2
  have e1 : (beforeEmission inp s).temp_sum = v := by rw [w1]; exact hsum
  have e2 : (beforeEmission inp s).sample_amnt = 1 := by rw [w2]; exact hcnt
  obtain ⟨s1, r1, _, _, _, _, r6, _⟩ := loopIter_emit inp s hflag (by rw [e2]; decide)
  exact ⟨s1, r1, by rw [r6, e1, e2], hbox⟩

/-- C8 (witness): a sample of -5 millivolts right after the first emission. -/
theorem C8_single_sample_average_witness :
    windowAverage [-5] afterFirstEmission = some (-5) :=
  (C8_single_sample_average (-5) afterFirstEmission (by decide) (by decide) (by decide)
    (by decide)).1

/-- C9 (counterexample): the single sample -5 after a reset is averaged to the
`int` -5, whose decomposition is `dec_first = 0`, `dec_last = -5`: the digit is
not in 0..9 and the line reads `0.-5`. -/
theorem C9_counterexample :
    windowAverage [-5] afterFirstEmission = some (-5) ∧
    dec_first (-5) = 0 ∧ dec_last (-5) = -5 ∧ ¬ (0 ≤ dec_last (-5)) ∧
    formatReading (-5) 100 24 =
      ("\x7b \"ADC\":-5, \"LMD35\":0.-5," ++ "\n                " ++
        "\"SPI\":10.0, \"I2C\":24 \x7d\r\n").toList := by
  decide

/-- C9 (amended): for every `int` average `temp`, `temp = 10 * dec_first +
dec_last` with `dec_last` between -9 and 9; when `temp` is not negative,
`dec_last` lies in 0..9 and is printed as one decimal digit, so the field
denotes `temp / 10`; when `temp` is negative, `dec_last` is not positive. For
every serial value, `sSPIval = 10 * (sSPIval / 10) + sSPIval % 10` with
`sSPIval % 10` in 0..9, printed as one decimal digit. -/
theorem C9_fixed_point_decomposition (temp : Int) (sSPIval : Nat) :
    temp = 10 * dec_first temp + dec_last temp ∧
    -9 ≤ dec_last temp ∧ dec_last temp ≤ 9 ∧
    (0 ≤ temp → 0 ≤ dec_last temp ∧ printInt (dec_last temp) = [digitChar temp.toNat]) ∧
    (temp < 0 → dec_last temp ≤ 0) ∧
    sSPIval = 10 * (sSPIval / 10) + sSPIval % 10 ∧ sSPIval % 10 ≤ 9 ∧
    printInt ((sSPIval % 10 : Nat) : Int) = [digitChar sSPIval] := by
  refine ⟨dec_decomposition temp, (dec_last_bounds temp).1, (dec_last_bounds temp).2,
    fun h => ⟨dec_last_nonneg temp h, dec_last_digit temp h⟩, dec_last_nonpos temp,
    by omega, by omega, ?_⟩
  rw [printInt_digit _ (Nat.mod_lt _ (by decide))]
  simp [digitChar]

/-- C10 (counterexample): the pass that emits the Reading of one 235 mV sample
calls `UART_1_PutString` while global interrupts are disabled. -/
theorem C10_counterexample :
    ∃ s1, loopIter (conversion 235) (clockISR afterFirstEmission) = Outcome.ok s1 ∧
      Event.UART_1_PutString (formatReading 235 0 0) false ∈ s1.trace :=
  ⟨_, rfl, by decide⟩

/-- C10 (amended): in every emission the masked section covers computing the
average, formatting the Reading, pushing it with `UART_1_PutString`, resetting
the window and clearing the period flag: the calls of the block are, in order,
`CyGlobalIntDisable`, the division, `UART_1_PutString` with interrupts disabled,
`CyGlobalIntEnable`, and interrupts are enabled again only when the window is
reset and the flag is clear. -/
theorem C10_emission_masked_section (s : State) (hflag : s.count_flag = 1)
    (hwin : s.sample_amnt ≠ 0) :
    ∃ temp s1, boxcar s.temp_sum s.sample_amnt = some temp ∧ emission s = Outcome.ok s1 ∧
      s1.trace = s.trace ++
        [Event.CyGlobalIntDisable, Event.average s.temp_sum s.sample_amnt temp,
         Event.UART_1_PutString (formatReading temp s.sSPIval s.sI2Cval) false,
         Event.CyGlobalIntEnable] ∧
      s1.intEnabled = true ∧ s1.temp_sum = 0 ∧ s1.sample_amnt = 0 ∧ s1.count_flag = 0 :=
  ⟨_, _, by simp [boxcar, hwin], emission_emit s hflag hwin, rfl, rfl, rfl, rfl, rfl⟩

/-- C10 (witness): the emission of one 235 mV sample after the first emission. -/
theorem C10_emission_masked_section_witness :
    ∃ temp s1,
      boxcar (beforeEmission (conversion 235) (clockISR afterFirstEmission)).temp_sum
        (beforeEmission (conversion 235) (clockISR afterFirstEmission)).sample_amnt = some temp ∧
      emission (beforeEmission (conversion 235) (clockISR afterFirstEmission)) = Outcome.ok s1 ∧
      s1.trace = (beforeEmission (conversion 235) (clockISR afterFirstEmission)).trace ++
        [Event.CyGlobalIntDisable,
         Event.average (beforeEmission (conversion 235) (clockISR afterFirstEmission)).temp_sum
           (beforeEmission (conversion 235) (clockISR afterFirstEmission)).sample_amnt temp,
         Event.UART_1_PutString (formatReading temp
           (beforeEmission (conversion 235) (clockISR afterFirstEmission)).sSPIval
           (beforeEmission (conversion 235) (clockISR afterFirstEmission)).sI2Cval) false,
         Event.CyGlobalIntEnable] ∧
      s1.intEnabled = true ∧ s1.temp_sum = 0 ∧ s1.sample_amnt = 0 ∧ s1.count_flag = 0 :=
  C10_emission_masked_section (beforeEmission (conversion 235) (clockISR afterFirstEmission))
    (by decide) (by decide)

end PSoC5
